import Mathlib

/-!
Verification of the QtOllama streaming chat core against its specification.

The repository contains three near-identical implementations of the chat
controller and its streaming response worker:
  * `quilLlama.py` (top level) — the primary implementation,
  * `streamchatContextAdder.py` — identical core logic,
  * `QtOllama-main-quilly/quilLlama.py` — the "quilly" variant, which differs
    in `send_message` (no trim call) and in the error payload of
    `ResponseThread.run` (`emit(e)` instead of `emit(str(e))`).

We shallowly embed the data model (role-tagged messages, controller state,
worker sessions) and the operations (`trim_messages`, `send_message`,
`stop_chat`, the signal handlers, and `ResponseThread.run`) as pure Lean
functions, modelling the streaming client by the list of fragments it yields
together with how it terminates.  The UI input field is modelled by passing
the prompt text as an argument; the `QTextEdit` chat display is modelled as
the string of text appended to it.
-/

/-- Message roles, from the `"role"` keys used throughout the code
(`"user"`, `"assistant"`; `"system"` appears in the data model). -/
inductive Role where
  | user
  | assistant
  | system
deriving DecidableEq, Repr

/-- A chat message: the dicts `{"role": ..., "content": ...}` built by
`send_message` and `handle_response_finished`. -/
structure Message where
  role : Role
  content : String
deriving DecidableEq, Repr

/-- Computes `sum(len(msg["content"]) for msg in self.messages)` — the total character
length used by `trim_messages` (quilLlama.py line 152). -/
def totalLength (msgs : List Message) : Nat :=
  (msgs.map (fun m => m.content.length)).sum

/-- Python `MainWindow.trim_messages` (quilLlama.py lines 151–156, identical in
streamchatContextAdder.py lines 139–144):
`while total_length > self.context_length and len(self.messages) > 1:
self.messages.pop(0)`.  Each loop iteration removes the head; the running
`total_length -= len(removed)` is the total length of the remaining list. -/
def trim_messages (budget : Nat) : List Message → List Message
  | [] => []
  | m :: rest =>
    if totalLength (m :: rest) > budget ∧ rest ≠ [] then
      trim_messages budget rest
    else
      m :: rest

/-!
## Worker events and the streaming client

`ResponseThread` (quilLlama.py lines 291–312, streamchatContextAdder.py lines
217–238, quilly lines 930–985) relays the fragments produced by
`ollama_generator` as Qt signals.  We model the behaviour of the streaming
client — as observed by the worker's `for chunk in ...` loop — by the list of
fragments it yields, together with whether it then completes normally or
raises an exception (whose `str(e)` description we carry as a string).
-/

/-- What one streaming call does, as seen by the worker's loop: it yields
`fragments` and then either completes normally or raises an exception with
description `msg`. -/
inductive StreamOutcome where
  | ok (fragments : List String)
  | err (fragments : List String) (msg : String)
deriving DecidableEq, Repr

/-- The payload handed to `error_occurred.emit`: the primary implementations
pass `str(e)` (a string); the quilly variant passes the exception object `e`
itself.  Both carry the exception's description, but only `str` is a string
as the signal's `pyqtSignal(str)` signature declares. -/
inductive ErrPayload where
  | str (s : String)
  | exc (s : String)
deriving DecidableEq, Repr

/-- The signals a `ResponseThread` emits: `response_chunk_received`,
`response_finished`, `error_occurred`. -/
inductive WorkerEvent where
  | chunk (s : String)
  | finished (full : String)
  | error (payload : ErrPayload)
deriving DecidableEq, Repr

/-- The body of the worker's `for` loop (quilLlama.py lines 306–308): for each
yielded fragment, `response += chunk; self.response_chunk_received.emit(chunk)`.
Returns the events emitted and the final accumulated `response`. -/
def runLoop (response : String) : List String → List WorkerEvent × String
  | [] => ([], response)
  | c :: cs =>
    let rec_result := runLoop (response ++ c) cs
    (WorkerEvent.chunk c :: rec_result.1, rec_result.2)

/-- Python `ResponseThread.run` (quilLlama.py lines 303–312, identically in
streamchatContextAdder.py lines 229–238): iterate the generator, emitting a
chunk signal per fragment; on normal exhaustion emit
`response_finished.emit(response)`; on an exception emit
`error_occurred.emit(str(e))`. -/
def ResponseThread_run : StreamOutcome → List WorkerEvent
  | .ok fs =>
    let r := runLoop "" fs
    r.1 ++ [WorkerEvent.finished r.2]
  | .err fs msg =>
    let r := runLoop "" fs
    r.1 ++ [WorkerEvent.error (ErrPayload.str msg)]

/-- Python `ResponseThread.run` in the quilly variant (quilly quilLlama.py lines
960–985): identical except that the `except` branch runs
`self.error_occurred.emit(e)` — the exception object, not `str(e)`. -/
def ResponseThread_run_quilly : StreamOutcome → List WorkerEvent
  | .ok fs =>
    let r := runLoop "" fs
    r.1 ++ [WorkerEvent.finished r.2]
  | .err fs msg =>
    let r := runLoop "" fs
    r.1 ++ [WorkerEvent.error (ErrPayload.exc msg)]

/-- The concatenation `f1 ++ ... ++ fn` of a fragment list, exactly as the
`response` accumulator folds it up starting from the empty string. -/
def concatFragments (fs : List String) : String :=
  fs.foldl (fun a c => a ++ c) ""

/-!
## Controller state

`MainWindow` holds `selected_model`, `messages`, `context_length`,
`assistant_response`, `thread` and the `chat_display` widget.  The display is
modelled as the string of text it shows (`append` adds a block ended by a
newline, `insertPlainText` adds text at the cursor, `clear` empties it); the
input field is modelled by passing its text as the `prompt` argument of
`send_message`.  A `ResponseThread` object is modelled by the data fixed in
its `__init__` — `model_name` and the `messages.copy()` snapshot — plus
whether it is still running. -/

/-- A `ResponseThread` as constructed by `__init__` (quilLlama.py lines
296–301): `self.model_name = model_name; self.messages = messages.copy()`.
The `.copy()` detaches the snapshot from the controller's list, which is what
justifies holding it here by value. -/
structure WorkerSession where
  model_name : String
  messages : List Message
  running : Bool
deriving DecidableEq, Repr

/-- The arguments `ResponseThread.run` passes to the streaming client:
`ollama_generator(self.model_name, self.messages)` — only the session's own
fields, fixed at construction. -/
def workerRequest (w : WorkerSession) : String × List Message :=
  (w.model_name, w.messages)

/-- The mutable state of `MainWindow` relevant to the chat pipeline. -/
structure ControllerState where
  selected_model : String
  messages : List Message
  context_length : Nat
  assistant_response : String
  thread : Option WorkerSession
  chat_display : String
deriving DecidableEq, Repr

/-- Models `QTextEdit.append`: adds a paragraph of text to the display. -/
def displayAppend (d s : String) : String := d ++ s ++ "\n"

/-- Python `MainWindow.send_message` (quilLlama.py lines 131–149, identical in
streamchatContextAdder.py lines 119–137): if the prompt is nonempty, append a
user message, display it, clear the input field, reset the accumulator,
display the assistant header, trim to the context budget, and start a
`ResponseThread` over the current messages and selected model. -/
def send_message (st : ControllerState) (prompt : String) : ControllerState :=
  if prompt = "" then st
  else
    let msgs1 := st.messages ++ [⟨Role.user, prompt⟩]
    let display1 := displayAppend st.chat_display ("<b>User:</b> " ++ prompt)
    let display2 := displayAppend display1 "<b>Assistant:</b> "
    let msgs2 := trim_messages st.context_length msgs1
    { st with
      messages := msgs2
      assistant_response := ""
      chat_display := display2
      thread := some ⟨st.selected_model, msgs2, true⟩ }

/-- Python `MainWindow.send_message` in the quilly variant (quilly quilLlama.py lines
505–538): the same steps except that it never calls `trim_messages` —
the thread is started directly over the untrimmed message list. -/
def send_message_quilly (st : ControllerState) (prompt : String) :
    ControllerState :=
  if prompt = "" then st
  else
    let msgs1 := st.messages ++ [⟨Role.user, prompt⟩]
    let display1 := displayAppend st.chat_display ("<b>User:</b> " ++ prompt)
    let display2 := displayAppend display1 "<b>Assistant:</b> "
    { st with
      messages := msgs1
      assistant_response := ""
      chat_display := display2
      thread := some ⟨st.selected_model, msgs1, true⟩ }

/-- Python `MainWindow.handle_response_chunk` (quilLlama.py lines 158–162):
`self.assistant_response += chunk; self.chat_display.insertPlainText(chunk)`. -/
def handle_response_chunk (st : ControllerState) (chunk : String) :
    ControllerState :=
  { st with
    assistant_response := st.assistant_response ++ chunk
    chat_display := st.chat_display ++ chunk }

/-- Python `MainWindow.handle_response_finished` (quilLlama.py lines 164–166):
append `{"role": "assistant", "content": self.assistant_response}`.  (The
signal's payload is ignored; the controller uses its own accumulator.) -/
def handle_response_finished (st : ControllerState) : ControllerState :=
  { st with
    messages := st.messages ++ [⟨Role.assistant, st.assistant_response⟩] }

/-- Python `MainWindow.handle_error` (quilLlama.py lines 168–171): logs and shows a
message box; the controller state is untouched. -/
def handle_error (st : ControllerState) (emsg : String) : ControllerState :=
  st

/-- Dispatch one worker signal to its connected slot (the `connect` calls in
`send_message`). -/
def processEvent (st : ControllerState) : WorkerEvent → ControllerState
  | .chunk c => handle_response_chunk st c
  | .finished _ => handle_response_finished st
  | .error p =>
    handle_error st (match p with | .str s => s | .exc s => s)

/-- Deliver a sequence of worker signals to the controller, in order. -/
def processEvents (st : ControllerState) (evs : List WorkerEvent) :
    ControllerState :=
  evs.foldl processEvent st

/-- Python `MainWindow.stop_chat` (quilLlama.py lines 278–284): if a thread exists
and is running, terminate and wait for it; then `self.messages = []` and
`self.chat_display.clear()`. -/
def stop_chat (st : ControllerState) : ControllerState :=
  let st1 :=
    match st.thread with
    | some w =>
      if w.running then
        { st with thread := some { w with running := false } }
      else st
    | none => st
  { st1 with messages := [], chat_display := "" }

/-- Python `MainWindow.restart_chat` (quilLlama.py lines 286–288): `stop_chat` plus a
log line. -/
def restart_chat (st : ControllerState) : ControllerState :=
  stop_chat st

/-- Python `MainWindow.model_changed` (quilLlama.py lines 126–129):
`self.selected_model = text`. -/
def model_changed (st : ControllerState) (text : String) : ControllerState :=
  { st with selected_model := text }

/-- Python `MainWindow.update_context_length` (quilLlama.py lines 108–111):
`self.context_length = value`. -/
def update_context_length (st : ControllerState) (value : Nat) :
    ControllerState :=
  { st with context_length := value }

/-- Helper for `get_last_user_message`: first user-role content in the given
(already reversed) list. -/
def lastUserAux : List Message → String
  | [] => ""
  | m :: rest => if m.role = Role.user then m.content else lastUserAux rest

/-- Python `MainWindow.get_last_user_message` (quilly quilLlama.py lines 800–815):
`for msg in reversed(self.messages): if msg['role'] == 'user': return
msg['content']`, else `return ""`. -/
def get_last_user_message (st : ControllerState) : String :=
  lastUserAux st.messages.reverse

/-- The controller state at start-up (`MainWindow.__init__`, quilLlama.py
lines 21–43): no model, empty conversation, context length 4096, empty
accumulator, no thread, empty display. -/
def initController : ControllerState :=
  { selected_model := ""
    messages := []
    context_length := 4096
    assistant_response := ""
    thread := none
    chat_display := "" }

/-!
## Controller operations as a transition system

For the reachability invariant we collect the externally triggerable
controller operations (button/signal slots) into one step function over
`ControllerState`.
-/

/-- The operations the UI and the worker signals can invoke on the
controller. -/
inductive Op where
  | send (prompt : String)
  | deliver (e : WorkerEvent)
  | stop
  | restartOp
  | changeModel (text : String)
  | setContext (value : Nat)
deriving DecidableEq, Repr

/-- One controller step: dispatch an operation to the slot implementing it. -/
def stepOp (st : ControllerState) : Op → ControllerState
  | .send p => send_message st p
  | .deliver e => processEvent st e
  | .stop => stop_chat st
  | .restartOp => restart_chat st
  | .changeModel t => model_changed st t
  | .setContext v => update_context_length st v

/-- The controller state after a sequence of operations from start-up. -/
def runOps (ops : List Op) : ControllerState :=
  ops.foldl stepOp initController

/-- Every user-role message in the conversation has nonempty content. -/
def userMessagesNonempty (st : ControllerState) : Prop :=
  ∀ m ∈ st.messages, m.role = Role.user → m.content ≠ ""

instance (st : ControllerState) : Decidable (userMessagesNonempty st) := by
  unfold userMessagesNonempty
  infer_instance

/-!
## Concrete states used in counterexamples and witnesses
-/

/-- A fresh controller with a model selected, as after `load_models` picks the
first installed model. -/
def sampleState : ControllerState :=
  { selected_model := "llama"
    messages := []
    context_length := 4096
    assistant_response := ""
    thread := none
    chat_display := "" }

/-- A controller whose conversation already exceeds a small context budget:
budget 3 with one stored 4-character user message. -/
def overBudgetState : ControllerState :=
  { selected_model := "m"
    messages := [⟨Role.user, "aaaa"⟩]
    context_length := 3
    assistant_response := ""
    thread := none
    chat_display := "" }

/-!
## Theorems
-/

theorem totalLength_nil : totalLength [] = 0 := rfl

theorem totalLength_cons (m : Message) (l : List Message) :
    totalLength (m :: l) = m.content.length + totalLength l := by
  simp [totalLength]

theorem totalLength_append (l₁ l₂ : List Message) :
    totalLength (l₁ ++ l₂) = totalLength l₁ + totalLength l₂ := by
  simp [totalLength]

/-- A trimmed conversation is always a suffix of the original: removal happens
only at the oldest end and never reorders. -/
theorem trim_messages_isSuffix (budget : Nat) (msgs : List Message) :
    List.IsSuffix (trim_messages budget msgs) msgs := by
  induction msgs with
  | nil => simp [trim_messages]
  | cons m rest ih =>
    rw [trim_messages]
    by_cases h : totalLength (m :: rest) > budget ∧ rest ≠ []
    · simp only [if_pos h]
      exact ih.trans (List.suffix_cons m rest)
    · simp only [if_neg h]
      exact List.suffix_refl _

/-- If the total length is already within budget, or at most one message
remains, trimming is the identity. -/
theorem trim_messages_of_fits (budget : Nat) (msgs : List Message)
    (h : totalLength msgs ≤ budget ∨ msgs.length ≤ 1) :
    trim_messages budget msgs = msgs := by
  cases msgs with
  | nil => rfl
  | cons m rest =>
    rw [trim_messages]
    rcases h with h | h
    · rw [if_neg]
      rintro ⟨hgt, -⟩
      omega
    · rw [if_neg]
      rintro ⟨-, hne⟩
      cases rest with
      | nil => exact hne rfl
      | cons _ _ => simp at h

/-- After trimming, either the remaining total fits the budget or a single
message remains (the loop guard `total_length > budget and len > 1` fails). -/
theorem trim_messages_post (budget : Nat) (msgs : List Message) :
    totalLength (trim_messages budget msgs) ≤ budget ∨
      (trim_messages budget msgs).length ≤ 1 := by
  induction msgs with
  | nil => right; simp [trim_messages]
  | cons m rest ih =>
    rw [trim_messages]
    by_cases h : totalLength (m :: rest) > budget ∧ rest ≠ []
    · simp only [if_pos h]; exact ih
    · simp only [if_neg h]
      rw [not_and_or] at h
      rcases h with h | h
      · left; omega
      · right
        have : rest = [] := by
          by_contra hne
          exact h hne
        simp [this]

/-- Trimming a nonempty conversation leaves a nonempty conversation. -/
theorem trim_messages_ne_nil (budget : Nat) (msgs : List Message)
    (h : msgs ≠ []) : trim_messages budget msgs ≠ [] := by
  induction msgs with
  | nil => exact absurd rfl h
  | cons m rest ih =>
    rw [trim_messages]
    by_cases hc : totalLength (m :: rest) > budget ∧ rest ≠ []
    · simp only [if_pos hc]
      exact ih hc.2
    · simp only [if_neg hc]
      exact List.cons_ne_nil m rest

/-- If the most recent message alone exceeds the budget, trimming strips the
conversation down to exactly that message. -/
theorem trim_messages_last_exceeds (budget : Nat) (l : List Message)
    (m : Message) (h : budget < m.content.length) :
    trim_messages budget (l ++ [m]) = [m] := by
  induction l with
  | nil =>
    rw [List.nil_append, trim_messages]
    rw [if_neg]
    rintro ⟨-, hne⟩
    exact hne rfl
  | cons x l' ih =>
    rw [List.cons_append, trim_messages, if_pos]
    · exact ih
    constructor
    · show totalLength ((x :: l') ++ [m]) > budget
      rw [totalLength_append]
      have hm : totalLength [m] = m.content.length := by
        simp [totalLength]
      omega
    · simp

/-- Claim C2 (amended to nonempty conversations): for every budget and every
nonempty message sequence `l ++ [m]`, `trim_messages` leaves at least one
message, retains a contiguous suffix in the original order, and the sum of
retained content lengths is at most the budget — unless the single most
recent message `m` alone exceeds the budget, in which case that message alone
remains.  (On the empty sequence the code leaves zero messages, see the
counterexample.) -/
theorem c2_trim_bounds (budget : Nat) (l : List Message) (m : Message) :
    1 ≤ (trim_messages budget (l ++ [m])).length ∧
    List.IsSuffix (trim_messages budget (l ++ [m])) (l ++ [m]) ∧
    (totalLength (trim_messages budget (l ++ [m])) ≤ budget ∨
      (budget < m.content.length ∧ trim_messages budget (l ++ [m]) = [m])) := by
  refine ⟨?_, trim_messages_isSuffix budget (l ++ [m]), ?_⟩
  · have := trim_messages_ne_nil budget (l ++ [m]) (by simp)
    cases hres : trim_messages budget (l ++ [m]) with
    | nil => exact absurd hres this
    | cons _ _ => simp
  · by_cases hm : budget < m.content.length
    · right
      exact ⟨hm, trim_messages_last_exceeds budget l m hm⟩
    · left
      rcases trim_messages_post budget (l ++ [m]) with h | h
      · exact h
      · -- a single message remains; it is a suffix of `l ++ [m]`, so it is `[m]`
        have hsuf := trim_messages_isSuffix budget (l ++ [m])
        have hne := trim_messages_ne_nil budget (l ++ [m]) (by simp)
        cases hres : trim_messages budget (l ++ [m]) with
        | nil => exact absurd hres hne
        | cons x rest =>
          rw [hres] at h hsuf
          have hrest : rest = [] := by
            simp at h
            exact h
          subst hrest
          obtain ⟨pre, hpre⟩ := hsuf
          have hx : x = m := by
            have := congrArg List.getLast? hpre
            simp at this
            exact this
          subst hx
          rw [totalLength_cons, totalLength_nil]
          omega

/-- The trimmed conversation is a drop of the original: there is a `k` with
`trim budget msgs = msgs.drop k`. -/
theorem trim_messages_eq_drop (budget : Nat) (msgs : List Message) :
    ∃ k, k ≤ msgs.length ∧ trim_messages budget msgs = msgs.drop k := by
  obtain ⟨pre, hpre⟩ := trim_messages_isSuffix budget msgs
  refine ⟨pre.length, ?_, ?_⟩
  · calc pre.length ≤ pre.length + (trim_messages budget msgs).length := by omega
    _ = msgs.length := by rw [← List.length_append, hpre]
  · have := congrArg (List.drop pre.length) hpre
    rw [List.drop_left] at this
    exact this

theorem foldl_append_eq (fs : List String) :
    ∀ a : String, fs.foldl (fun x c => x ++ c) a = a ++ concatFragments fs := by
  induction fs with
  | nil => intro a; simp [concatFragments]
  | cons c cs ih =>
    intro a
    show cs.foldl (fun x c => x ++ c) (a ++ c) = a ++ concatFragments (c :: cs)
    rw [ih (a ++ c)]
    show a ++ c ++ concatFragments cs = a ++ concatFragments (c :: cs)
    have : concatFragments (c :: cs) = c ++ concatFragments cs := by
      show cs.foldl (fun x c => x ++ c) ("" ++ c) = c ++ concatFragments cs
      rw [ih ("" ++ c)]
      simp
    rw [this, String.append_assoc]

theorem concatFragments_cons (c : String) (cs : List String) :
    concatFragments (c :: cs) = c ++ concatFragments cs := by
  show cs.foldl (fun x c => x ++ c) ("" ++ c) = c ++ concatFragments cs
  rw [foldl_append_eq cs ("" ++ c)]
  simp

/-- The loop emits exactly one chunk event per fragment, in order, and its
accumulator ends at the starting string followed by the concatenation. -/
theorem runLoop_spec (fs : List String) : ∀ response : String,
    runLoop response fs =
      (fs.map WorkerEvent.chunk, response ++ concatFragments fs) := by
  induction fs with
  | nil => intro response; simp [runLoop, concatFragments]
  | cons c cs ih =>
    intro response
    rw [runLoop, ih (response ++ c)]
    simp [concatFragments_cons, String.append_assoc]

/-!
## Supporting lemmas on signal delivery and the last-user scan
-/

theorem processEvents_append (st : ControllerState)
    (l₁ l₂ : List WorkerEvent) :
    processEvents st (l₁ ++ l₂) = processEvents (processEvents st l₁) l₂ := by
  simp [processEvents, List.foldl_append]

/-- Delivering the chunk signals for a fragment list appends the concatenated
fragments to the accumulator and the display and touches nothing else. -/
theorem processEvents_chunks (fs : List String) : ∀ st : ControllerState,
    processEvents st (fs.map WorkerEvent.chunk) =
      { st with
        assistant_response := st.assistant_response ++ concatFragments fs
        chat_display := st.chat_display ++ concatFragments fs } := by
  induction fs with
  | nil =>
    intro st
    simp [processEvents, concatFragments]
  | cons c cs ih =>
    intro st
    have hstep : processEvents st ((c :: cs).map WorkerEvent.chunk) =
        processEvents (handle_response_chunk st c)
          (cs.map WorkerEvent.chunk) := rfl
    rw [hstep, ih]
    simp [handle_response_chunk, concatFragments_cons, String.append_assoc]

/-- The scan helper returns the empty sentinel exactly when the scanned list
has no user-role message whose content could be returned, provided user
messages have nonempty content. -/
theorem lastUserAux_eq_empty_iff (l : List Message)
    (hinv : ∀ m ∈ l, m.role = Role.user → m.content ≠ "") :
    (lastUserAux l = "" ↔ ∀ m ∈ l, m.role ≠ Role.user) := by
  induction l with
  | nil => simp [lastUserAux]
  | cons m rest ih =>
    rw [lastUserAux]
    by_cases hrole : m.role = Role.user
    · rw [if_pos hrole]
      constructor
      · intro hc
        exact absurd hc (hinv m (by simp) hrole)
      · intro hall
        exact absurd hrole (hall m (by simp))
    · rw [if_neg hrole]
      have hinv' : ∀ m' ∈ rest, m'.role = Role.user → m'.content ≠ "" :=
        fun m' hm' => hinv m' (List.mem_cons_of_mem m hm')
      rw [ih hinv']
      constructor
      · intro hall m' hm'
        rcases List.mem_cons.mp hm' with h | h
        · rw [h]; exact hrole
        · exact hall m' h
      · intro hall m' hm'
        exact hall m' (List.mem_cons_of_mem m hm')

/-- If no message in the scanned list has the user role, the scan returns the
empty sentinel. -/
theorem lastUserAux_of_no_user (l : List Message)
    (h : ∀ m ∈ l, m.role ≠ Role.user) : lastUserAux l = "" := by
  induction l with
  | nil => rfl
  | cons m rest ih =>
    rw [lastUserAux, if_neg (h m (by simp))]
    exact ih fun m' hm' => h m' (List.mem_cons_of_mem m hm')

/-- The scan returns the content of the first user-role message in the
scanned list. -/
theorem lastUserAux_first_user (l₁ : List Message) (c : String)
    (l₂ : List Message) (h : ∀ m ∈ l₁, m.role ≠ Role.user) :
    lastUserAux (l₁ ++ ⟨Role.user, c⟩ :: l₂) = c := by
  induction l₁ with
  | nil => simp [lastUserAux]
  | cons m rest ih =>
    rw [List.cons_append, lastUserAux, if_neg (h m (by simp))]
    exact ih fun m' hm' => h m' (List.mem_cons_of_mem m hm')

/-- Each controller operation preserves nonemptiness of user messages:
`send_message` appends a user message only under its nonempty-prompt guard,
`handle_response_finished` appends an assistant message, trimming and
clearing only remove messages. -/
theorem stepOp_preserves_userMessagesNonempty (st : ControllerState) (op : Op)
    (h : userMessagesNonempty st) : userMessagesNonempty (stepOp st op) := by
  cases op with
  | send p =>
    show userMessagesNonempty (send_message st p)
    rw [send_message]
    by_cases hp : p = ""
    · rw [if_pos hp]; exact h
    · rw [if_neg hp]
      intro m hm hrole
      have hsub := (trim_messages_isSuffix st.context_length
        (st.messages ++ [⟨Role.user, p⟩])).subset hm
      rcases List.mem_append.mp hsub with hmem | hmem
      · exact h m hmem hrole
      · simp at hmem
        rw [hmem]
        exact hp
  | deliver e =>
    cases e with
    | chunk c =>
      intro m hm hrole
      exact h m hm hrole
    | finished s =>
      intro m hm hrole
      rcases List.mem_append.mp hm with hmem | hmem
      · exact h m hmem hrole
      · simp at hmem
        rw [hmem] at hrole
        exact absurd hrole (by simp)
    | error p =>
      intro m hm hrole
      exact h m hm hrole
  | stop =>
    intro m hm
    have hnil : (stepOp st Op.stop).messages = [] := rfl
    rw [hnil] at hm
    exact absurd hm (List.not_mem_nil m)
  | restartOp =>
    intro m hm
    have hnil : (stepOp st Op.restartOp).messages = [] := rfl
    rw [hnil] at hm
    exact absurd hm (List.not_mem_nil m)
  | changeModel t =>
    intro m hm hrole
    exact h m hm hrole
  | setContext v =>
    intro m hm hrole
    exact h m hm hrole

/-!
## Claim theorems
-/

/-- Claim C5: `trim_messages` is deterministic (it is a function) and
idempotent — applying it twice in succession with the same budget and no
intervening append yields the same conversation as applying it once. -/
theorem c5_trim_idempotent (budget : Nat) (msgs : List Message) :
    trim_messages budget (trim_messages budget msgs) =
      trim_messages budget msgs :=
  trim_messages_of_fits budget _ (trim_messages_post budget msgs)

/-- Claim C6: a send with empty prompt text is silently rejected in every
controller state — no message is appended, no worker is started, the display
and all other fields are unchanged — in both the primary `send_message` and
the quilly variant. -/
theorem c6_empty_prompt_rejected (st : ControllerState) :
    send_message st "" = st ∧ send_message_quilly st "" = st := by
  constructor <;> simp [send_message, send_message_quilly]

/-- Claim C7: `stop_chat` always leaves the conversation empty and the
display cleared, in every controller state; when no worker exists the cancel
step is a no-op, so the whole call only clears the conversation and the
display. -/
theorem c7_stop_clears (st : ControllerState) :
    (stop_chat st).messages = [] ∧
    (stop_chat st).chat_display = "" ∧
    (st.thread = none →
      stop_chat st = { st with messages := [], chat_display := "" }) := by
  refine ⟨rfl, rfl, ?_⟩
  intro h
  simp [stop_chat, h]

/-- Witness for C7 at a concrete worker-free state. -/
theorem c7_witness :
    stop_chat sampleState =
      { sampleState with messages := [], chat_display := "" } :=
  (c7_stop_clears sampleState).2.2 rfl

/-- Claim C8: `get_last_user_message` returns the content of the most recent
user-role message, scanning from the end, and the empty-string sentinel when
no user message exists; on `[user "a", assistant "b", user "c"]` it returns
`"c"`. -/
theorem c8_last_user_message :
    (∀ (st : ControllerState) (pre suff : List Message) (c : String),
        st.messages = pre ++ ⟨Role.user, c⟩ :: suff →
        (∀ m ∈ suff, m.role ≠ Role.user) →
        get_last_user_message st = c) ∧
    (∀ st : ControllerState,
        (∀ m ∈ st.messages, m.role ≠ Role.user) →
        get_last_user_message st = "") ∧
    get_last_user_message
      { sampleState with
        messages := [⟨Role.user, "a"⟩, ⟨Role.assistant, "b"⟩,
          ⟨Role.user, "c"⟩] } = "c" := by
  refine ⟨?_, ?_, ?_⟩
  · intro st pre suff c hmsgs hsuff
    rw [get_last_user_message, hmsgs]
    have hrev : (pre ++ (⟨Role.user, c⟩ : Message) :: suff).reverse =
        suff.reverse ++ (⟨Role.user, c⟩ : Message) :: pre.reverse := by
      simp
    rw [hrev]
    exact lastUserAux_first_user suff.reverse c pre.reverse
      fun m hm => hsuff m (List.mem_reverse.mp hm)
  · intro st h
    exact lastUserAux_of_no_user st.messages.reverse
      fun m hm => h m (List.mem_reverse.mp hm)
  · rfl

/-- Witness for C8's universally quantified part at a concrete
conversation. -/
theorem c8_witness :
    get_last_user_message
      { sampleState with
        messages := [⟨Role.user, "x"⟩, ⟨Role.assistant, "y"⟩,
          ⟨Role.user, "z"⟩] } = "z" :=
  c8_last_user_message.1 _ [⟨Role.user, "x"⟩, ⟨Role.assistant, "y"⟩] [] "z"
    rfl (by simp)

/-- Counterexample to Claim C2 as stated: on the empty message sequence,
`trim_messages` leaves zero messages, not at least one — the guarantee only
holds for nonempty conversations. -/
theorem c2_counterexample :
    trim_messages 5 ([] : List Message) = [] ∧
    ¬ 1 ≤ (trim_messages 5 ([] : List Message)).length := by
  exact ⟨rfl, by decide⟩

/-- Counterexample to Claim C3 as stated: in the quilly variant,
`send_message` never trims, so a send over an already over-budget
conversation starts the worker on a snapshot whose total length (6) exceeds
the budget (3) while holding more than one message. -/
theorem c3_counterexample :
    (send_message_quilly overBudgetState "bb").thread =
      some ⟨"m", [⟨Role.user, "aaaa"⟩, ⟨Role.user, "bb"⟩], true⟩ ∧
    ¬ (totalLength [⟨Role.user, "aaaa"⟩, ⟨Role.user, "bb"⟩] ≤
          overBudgetState.context_length ∨
        ([⟨Role.user, "aaaa"⟩, ⟨Role.user, "bb"⟩] : List Message).length
          = 1) := by
  exact ⟨by decide, by decide⟩

/-- Claim C3 (amended to the primary implementations, quilLlama.py and
streamchatContextAdder.py): every send of a non-empty prompt appends the user
message, resets the accumulator, trims the conversation to the configured
context budget, and starts the worker over the trimmed snapshot — so at
worker start the total character length of the messages is at most the budget
or a single message remains.  The quilly variant's `send_message` starts the
worker without trimming. -/
theorem c3_send_trims (st : ControllerState) (prompt : String)
    (h : prompt ≠ "") :
    (send_message st prompt).messages =
      trim_messages st.context_length
        (st.messages ++ [⟨Role.user, prompt⟩]) ∧
    (send_message st prompt).assistant_response = "" ∧
    (send_message st prompt).thread =
      some ⟨st.selected_model, (send_message st prompt).messages, true⟩ ∧
    (totalLength (send_message st prompt).messages ≤ st.context_length ∨
      (send_message st prompt).messages.length = 1) := by
  have hsend : send_message st prompt =
      { st with
        messages := trim_messages st.context_length
          (st.messages ++ [⟨Role.user, prompt⟩])
        assistant_response := ""
        chat_display := displayAppend
          (displayAppend st.chat_display ("<b>User:</b> " ++ prompt))
          "<b>Assistant:</b> "
        thread := some ⟨st.selected_model,
          trim_messages st.context_length
            (st.messages ++ [⟨Role.user, prompt⟩]), true⟩ } := by
    rw [send_message, if_neg h]
  rw [hsend]
  refine ⟨rfl, rfl, rfl, ?_⟩
  show totalLength (trim_messages st.context_length
      (st.messages ++ [⟨Role.user, prompt⟩])) ≤ st.context_length ∨
    (trim_messages st.context_length
      (st.messages ++ [⟨Role.user, prompt⟩])).length = 1
  rcases trim_messages_post st.context_length
      (st.messages ++ [⟨Role.user, prompt⟩]) with hp | hp
  · exact Or.inl hp
  · right
    have hne := trim_messages_ne_nil st.context_length
      (st.messages ++ [⟨Role.user, prompt⟩]) (by simp)
    have hpos : 0 < (trim_messages st.context_length
        (st.messages ++ [⟨Role.user, prompt⟩])).length :=
      List.length_pos.mpr hne
    omega

/-- Witness for C3 (amended) at a concrete over-budget state. -/
theorem c3_witness :
    (send_message overBudgetState "bb").messages =
      trim_messages overBudgetState.context_length
        (overBudgetState.messages ++ [⟨Role.user, "bb"⟩]) ∧
    (send_message overBudgetState "bb").assistant_response = "" ∧
    (send_message overBudgetState "bb").thread =
      some ⟨overBudgetState.selected_model,
        (send_message overBudgetState "bb").messages, true⟩ ∧
    (totalLength (send_message overBudgetState "bb").messages ≤
        overBudgetState.context_length ∨
      (send_message overBudgetState "bb").messages.length = 1) :=
  c3_send_trims overBudgetState "bb" (by decide)

/-- Claim C1: for every fragment sequence the streaming client yields
followed by normal completion, the worker emits one chunk signal per fragment
in arrival order and then exactly one finished signal carrying the full
accumulated text; after delivery, the conversation has gained exactly one new
assistant message equal to the concatenation of the fragments, appended right
after the one new user message from the send. -/
theorem c1_streaming_success (st : ControllerState) (prompt : String)
    (fs : List String) (h : prompt ≠ "") :
    ResponseThread_run (StreamOutcome.ok fs) =
      fs.map WorkerEvent.chunk ++
        [WorkerEvent.finished (concatFragments fs)] ∧
    ∃ k, k ≤ st.messages.length ∧
      (processEvents (send_message st prompt)
          (ResponseThread_run (StreamOutcome.ok fs))).messages =
        st.messages.drop k ++
          [⟨Role.user, prompt⟩, ⟨Role.assistant, concatFragments fs⟩] := by
  have hrun : ResponseThread_run (StreamOutcome.ok fs) =
      fs.map WorkerEvent.chunk ++
        [WorkerEvent.finished (concatFragments fs)] := by
    show (runLoop "" fs).1 ++ [WorkerEvent.finished (runLoop "" fs).2] = _
    rw [runLoop_spec fs ""]
    rw [String.empty_append]
  refine ⟨hrun, ?_⟩
  have hsend : send_message st prompt =
      { st with
        messages := trim_messages st.context_length
          (st.messages ++ [⟨Role.user, prompt⟩])
        assistant_response := ""
        chat_display := displayAppend
          (displayAppend st.chat_display ("<b>User:</b> " ++ prompt))
          "<b>Assistant:</b> "
        thread := some ⟨st.selected_model,
          trim_messages st.context_length
            (st.messages ++ [⟨Role.user, prompt⟩]), true⟩ } := by
    rw [send_message, if_neg h]
  obtain ⟨k, hk, hdrop⟩ := trim_messages_eq_drop st.context_length
    (st.messages ++ [⟨Role.user, prompt⟩])
  have hne := trim_messages_ne_nil st.context_length
    (st.messages ++ [⟨Role.user, prompt⟩]) (by simp)
  have hklen : k ≤ st.messages.length := by
    by_contra hgt
    push_neg at hgt
    have hge : (st.messages ++ [Message.mk Role.user prompt]).length ≤ k := by
      simp only [List.length_append, List.length_cons, List.length_nil]
      omega
    rw [List.drop_eq_nil_of_le hge] at hdrop
    exact hne hdrop
  refine ⟨k, hklen, ?_⟩
  rw [hrun, processEvents_append, processEvents_chunks]
  show (handle_response_finished _).messages = _
  rw [handle_response_finished]
  show (send_message st prompt).messages ++
      [⟨Role.assistant, (send_message st prompt).assistant_response ++
        concatFragments fs⟩] = _
  rw [hsend]
  show trim_messages st.context_length
      (st.messages ++ [⟨Role.user, prompt⟩]) ++
      [⟨Role.assistant, "" ++ concatFragments fs⟩] = _
  rw [String.empty_append, hdrop,
    List.drop_append_of_le_length hklen, List.append_assoc]
  rfl

/-- Witness for C1 at a concrete state, prompt and fragment list. -/
theorem c1_witness :
    ResponseThread_run (StreamOutcome.ok ["Hi", " there", "!"]) =
      ["Hi", " there", "!"].map WorkerEvent.chunk ++
        [WorkerEvent.finished (concatFragments ["Hi", " there", "!"])] ∧
    ∃ k, k ≤ sampleState.messages.length ∧
      (processEvents (send_message sampleState "hello")
          (ResponseThread_run
            (StreamOutcome.ok ["Hi", " there", "!"]))).messages =
        sampleState.messages.drop k ++
          [⟨Role.user, "hello"⟩,
            ⟨Role.assistant, concatFragments ["Hi", " there", "!"]⟩] :=
  c1_streaming_success sampleState "hello" ["Hi", " there", "!"] (by decide)

/-- Claim C4, evaluated at the failing input (client yields `"Hi"` then
raises an exception described `"boom"`): the primary worker emits the chunk
and then one error signal carrying the string `str(e)` and no finished
signal, and the conversation keeps only the dangling user message; the quilly
variant's worker instead hands the exception object itself — not a string —
to the `str`-typed `error_occurred` signal. -/
theorem c4_error_payload_divergence :
    ResponseThread_run (StreamOutcome.err ["Hi"] "boom") =
      [WorkerEvent.chunk "Hi", WorkerEvent.error (ErrPayload.str "boom")] ∧
    ResponseThread_run_quilly (StreamOutcome.err ["Hi"] "boom") =
      [WorkerEvent.chunk "Hi", WorkerEvent.error (ErrPayload.exc "boom")] ∧
    (∀ e ∈ ResponseThread_run (StreamOutcome.err ["Hi"] "boom"),
      ∀ s, e ≠ WorkerEvent.finished s) ∧
    (processEvents (send_message sampleState "hello")
        (ResponseThread_run (StreamOutcome.err ["Hi"] "boom"))).messages =
      [⟨Role.user, "hello"⟩] ∧
    (send_message sampleState "hello").messages = [⟨Role.user, "hello"⟩] := by
  refine ⟨by decide, by decide, ?_, by decide, by decide⟩
  intro e he s
  have hev : ResponseThread_run (StreamOutcome.err ["Hi"] "boom") =
      [WorkerEvent.chunk "Hi", WorkerEvent.error (ErrPayload.str "boom")] :=
    by decide
  rw [hev] at he
  rcases List.mem_cons.mp he with h | h
  · rw [h]; intro hc; exact WorkerEvent.noConfusion hc
  · simp only [List.mem_singleton] at h
    rw [h]; intro hc; exact WorkerEvent.noConfusion hc

/-- Claim C9: `model_changed` updates only the selected model (every other
field, including any in-flight worker session, is untouched); the worker's
model identifier and message snapshot are fixed at construction by
`send_message`, so neither a later model change nor the appends performed by
the response handlers alter the request the in-flight worker makes. -/
theorem c9_model_change_frame (st : ControllerState)
    (prompt text chunk : String) (h : prompt ≠ "") :
    model_changed st text = { st with selected_model := text } ∧
    (model_changed st text).thread = st.thread ∧
    (model_changed st text).messages = st.messages ∧
    (send_message st prompt).thread =
      some ⟨st.selected_model,
        trim_messages st.context_length
          (st.messages ++ [⟨Role.user, prompt⟩]), true⟩ ∧
    (model_changed (send_message st prompt) text).thread =
      (send_message st prompt).thread ∧
    (handle_response_chunk (send_message st prompt) chunk).thread =
      (send_message st prompt).thread ∧
    (handle_response_finished (send_message st prompt)).thread =
      (send_message st prompt).thread ∧
    (∀ w : WorkerSession,
      (send_message st prompt).thread = some w →
      workerRequest w =
        (st.selected_model,
          trim_messages st.context_length
            (st.messages ++ [⟨Role.user, prompt⟩]))) := by
  have hthread : (send_message st prompt).thread =
      some ⟨st.selected_model,
        trim_messages st.context_length
          (st.messages ++ [⟨Role.user, prompt⟩]), true⟩ := by
    rw [send_message, if_neg h]
  refine ⟨rfl, rfl, rfl, hthread, rfl, rfl, rfl, ?_⟩
  intro w hw
  rw [hthread] at hw
  have hw' : w = ⟨st.selected_model,
      trim_messages st.context_length
        (st.messages ++ [⟨Role.user, prompt⟩]), true⟩ :=
    (Option.some.injEq _ _).mp hw.symm
  rw [hw']
  rfl

/-- Witness for C9 at a concrete state, prompt, model name and chunk. -/
theorem c9_witness :
    model_changed sampleState "mistral" =
      { sampleState with selected_model := "mistral" } ∧
    (model_changed sampleState "mistral").thread = sampleState.thread ∧
    (model_changed sampleState "mistral").messages = sampleState.messages ∧
    (send_message sampleState "hello").thread =
      some ⟨sampleState.selected_model,
        trim_messages sampleState.context_length
          (sampleState.messages ++ [⟨Role.user, "hello"⟩]), true⟩ ∧
    (model_changed (send_message sampleState "hello") "mistral").thread =
      (send_message sampleState "hello").thread ∧
    (handle_response_chunk (send_message sampleState "hello") "Hi").thread =
      (send_message sampleState "hello").thread ∧
    (handle_response_finished (send_message sampleState "hello")).thread =
      (send_message sampleState "hello").thread ∧
    (∀ w : WorkerSession,
      (send_message sampleState "hello").thread = some w →
      workerRequest w =
        (sampleState.selected_model,
          trim_messages sampleState.context_length
            (sampleState.messages ++ [⟨Role.user, "hello"⟩]))) :=
  c9_model_change_frame sampleState "hello" "mistral" "Hi" (by decide)

/-- Claim C10: from start-up, every reachable controller state has only
nonempty user-message contents (sends append a user message only under the
nonempty-prompt guard, and no other operation appends user messages), and
under that invariant the empty-string sentinel of `get_last_user_message` is
unambiguous — it is returned exactly when no user message exists. -/
theorem c10_user_messages_nonempty :
    (∀ ops : List Op, userMessagesNonempty (runOps ops)) ∧
    (∀ st : ControllerState, userMessagesNonempty st →
      (get_last_user_message st = "" ↔
        ∀ m ∈ st.messages, m.role ≠ Role.user)) := by
  constructor
  · intro ops
    rw [runOps]
    have hgen : ∀ (l : List Op) (st : ControllerState),
        userMessagesNonempty st →
        userMessagesNonempty (l.foldl stepOp st) := by
      intro l
      induction l with
      | nil => intro st hst; exact hst
      | cons op rest ih =>
        intro st hst
        exact ih _ (stepOp_preserves_userMessagesNonempty st op hst)
    refine hgen ops initController ?_
    intro m hm
    exact absurd hm (List.not_mem_nil m)
  · intro st hinv
    rw [get_last_user_message]
    rw [lastUserAux_eq_empty_iff st.messages.reverse
      fun m hm => hinv m (List.mem_reverse.mp hm)]
    constructor
    · intro hall m hm
      exact hall m (List.mem_reverse.mpr hm)
    · intro hall m hm
      exact hall m (List.mem_reverse.mp hm)

/-- Witness for C10's second part at a concrete state satisfying the
invariant. -/
theorem c10_witness :
    get_last_user_message overBudgetState = "" ↔
      ∀ m ∈ overBudgetState.messages, m.role ≠ Role.user :=
  c10_user_messages_nonempty.2 overBudgetState (by decide)
